import Mathlib

/-!
Verification development for the expression-generator core of
`tools/fuzzer/expr_gen.cc` (lldb-eval's fuzzer).

The generator is embedded shallowly:

* The pseudo-random engine (`std::mt19937` behind `DefaultGeneratorRng`) is
  modelled as an abstract output stream `stream : Nat → Nat` plus a cursor
  `counter`; every draw reads `stream counter`, advances the cursor by one,
  and logs one `Draw` record, mirroring the fact that every distribution
  call advances the engine exactly once.
* C++ `float`/`double` values are modelled as rationals (`ℚ`); a standard
  uniform-real draw on `[0, hi)` is modelled as `hi * frac raw` where
  `frac raw ∈ [0, 1)` is the engine output scaled into the unit interval.
* The unbounded recursion of `gen_with_weights` is made total with an
  explicit fuel argument; fuel exhaustion returns `none`.
* Failed assertions (`assert`, `lldb_eval_unreachable`) are modelled as
  `none` results.
-/

namespace fuzzer

/-- One logged randomness draw, tagged by the `DefaultGeneratorRng` method
that issued it. -/
inductive Draw where
  | exprKind (idx : Nat)
  | typeKind (idx : Nat)
  | binOp (op : Nat)
  | unOp (op : Nat)
  | u64 (v : Nat)
  | dbl (v : ℚ)
  | paren (b : Bool)
  | cvConst (b : Bool)
  | cvVolatile (b : Bool)
deriving DecidableEq

/-- The state of one `DefaultGeneratorRng`: the engine's output stream, the
cursor of the next output to be consumed, and the log of draws made so far. -/
structure RngState where
  stream : Nat → Nat
  counter : Nat
  trace : List Draw

/-- The raw engine output the next draw will consume. -/
def rawVal (s : RngState) : Nat := s.stream s.counter

/-- Consume one engine output and log the draw `d`. -/
def bump (s : RngState) (d : Draw) : RngState :=
  ⟨s.stream, s.counter + 1, s.trace ++ [d]⟩

/-- Denominator used to scale a raw engine output into `[0, 1)`. -/
def RAND_DEN : Nat := 2 ^ 53

/-- A raw engine output scaled into the unit interval `[0, 1)`; the model of
one canonical real draw by a standard distribution object. -/
def frac (r : Nat) : ℚ := ((r % RAND_DEN : Nat) : ℚ) / (RAND_DEN : ℚ)

/-- Modelled from the spec: the closed enumeration of generation-side
expression kinds, in the enum's declared (index) order
{IntegerConstant, DoubleConstant, VariableExpr, BinaryExpr, UnaryExpr}
(`tools/fuzzer/ast.h` is not under `src/`). `ParenthesizedExpr` is a wrapper,
not a drawn kind. -/
inductive ExprKind where
  | IntegerConstant
  | DoubleConstant
  | VariableExpr
  | BinaryExpr
  | UnaryExpr
deriving DecidableEq

/-- The numeric enum value of an `ExprKind` (`(size_t)kind`). -/
def ExprKind.toIdx : ExprKind → Nat
  | .IntegerConstant => 0
  | .DoubleConstant => 1
  | .VariableExpr => 2
  | .BinaryExpr => 3
  | .UnaryExpr => 4

/-- The `ExprKind` with a given enum value (`(ExprKind)i`); indices ≥ 5 are
never produced by the selection loop. -/
def ExprKind.ofIdx : Nat → ExprKind
  | 0 => .IntegerConstant
  | 1 => .DoubleConstant
  | 2 => .VariableExpr
  | 3 => .BinaryExpr
  | 4 => .UnaryExpr
  | _ => .IntegerConstant

/-- Modelled from the spec: the generation-side expression tree of
`tools/fuzzer/ast.h` (header not under `src/`): a sum type over integer and
double constants, a variable reference, unary and binary operator nodes and
a parenthesized wrapper, each compound variant owning its children.
Operators are represented by their numeric enum value. -/
inductive Expr where
  | IntegerConstant (value : Nat)
  | DoubleConstant (value : ℚ)
  | VariableExpr (name : String)
  | BinaryExpr (lhs : Expr) (op : Nat) (rhs : Expr)
  | UnaryExpr (op : Nat) (operand : Expr)
  | ParenthesizedExpr (inner : Expr)
deriving DecidableEq

/-- Modelled from the spec: the precedence tables of `tools/fuzzer/ast.h`
(header not under `src/`): every binary operator has a fixed precedence
(`bin_op_precedence`) and `UnaryExpr` has one fixed constant precedence
(`UnaryExpr::PRECEDENCE`); smaller binds tighter. -/
structure PrecTable where
  binOp : Nat → Nat
  unaryPrec : Nat

/-- `expr_precedence` (expr_gen.cc line 30): the precedence of each variant.
Modelled from the spec: leaves and `ParenthesizedExpr` bind tightest
(precedence 0), `UnaryExpr` exposes its fixed constant precedence, and a
`BinaryExpr` exposes its operator's precedence. -/
def expr_precedence (pt : PrecTable) : Expr → Nat
  | .IntegerConstant _ => 0
  | .DoubleConstant _ => 0
  | .VariableExpr _ => 0
  | .BinaryExpr _ op _ => pt.binOp op
  | .UnaryExpr _ _ => pt.unaryPrec
  | .ParenthesizedExpr _ => 0

/-- Modelled from the spec: the `Weights` value type of
`tools/fuzzer/expr_gen.h` (header not under `src/`): one weight slot per
`ExprKind` and a parallel, independent type-kind weight sequence. -/
structure Weights where
  expr_weights : ExprKind → ℚ
  type_weights : List ℚ

/-- Modelled from the spec: one row of the per-kind configuration table:
`{initial_weight, dampening_factor}`. -/
structure KindWeightInfo where
  initial_weight : ℚ
  dampening_factor : ℚ

/-- Modelled from the spec: the generator configuration consumed by
`ExprGenerator` (header not under `src/`): literal ranges, enabled-operator
masks (one `Bool` per operator enum value, index order), probabilities and
the per-kind weight tables. -/
structure GenConfig where
  int_const_min : Nat
  int_const_max : Nat
  double_constant_min : ℚ
  double_constant_max : ℚ
  bin_op_mask : List Bool
  un_op_mask : List Bool
  parenthesize_prob : ℚ
  const_prob : ℚ
  volatile_prob : ℚ
  expr_kind_weights : ExprKind → KindWeightInfo
  type_kind_weights : List KindWeightInfo

/-- Modelled from the spec: cv-qualifier flags; const and volatile are drawn
by two independent Bernoulli trials. -/
structure CvQualifiers where
  is_const : Bool
  is_volatile : Bool
deriving DecidableEq

/-- Modelled from the spec: the single externally-supplied variable symbol
referenced by `VariableExpr(VAR)`. -/
def VAR : String := "x"

/-- `DefaultGeneratorRng::gen_u64` (lines 192-195): one
`uniform_int_distribution<uint64_t>(min, max)` draw, inclusive range. -/
def DefaultGeneratorRng.gen_u64 (mn mx : Nat) (s : RngState) : Nat × RngState :=
  let v := mn + rawVal s % (mx - mn + 1)
  (v, bump s (.u64 v))

/-- `DefaultGeneratorRng::gen_double` (lines 197-200): one
`uniform_real_distribution<double>(min, max)` draw. -/
def DefaultGeneratorRng.gen_double (mn mx : ℚ) (s : RngState) : ℚ × RngState :=
  let v := mn + (mx - mn) * frac (rawVal s)
  (v, bump s (.dbl v))

/-- `DefaultGeneratorRng::gen_parenthesize` (lines 218-221): one
`bernoulli_distribution(probability)` draw. -/
def DefaultGeneratorRng.gen_parenthesize (p : ℚ) (s : RngState) : Bool × RngState :=
  let b := if frac (rawVal s) < p then true else false
  (b, bump s (.paren b))

/-- The scanning loop of `pick_nth_set_bit` (lines 165-174): walk mask
positions in increasing index order, keeping the running count of set bits,
and return the first position where the running count equals `choice`.
Arguments: remaining mask suffix, the drawn `choice`, `running_ones` so far,
current absolute position. Falling off the list is the
`lldb_eval_unreachable` path, modelled as `none`. -/
def scanNth : List Bool → Nat → Nat → Nat → Option Nat
  | [], _, _, _ => none
  | b :: rest, choice, running, i =>
    let running' := if b then running + 1 else running
    if running' = choice then some i else scanNth rest choice running' (i + 1)

/-- `pick_nth_set_bit` (lines 157-182) with the uniform draw made explicit:
given the drawn `choice`, scan for the `choice`-th set bit. The
`assert(mask.any())` is modelled by returning `none` on an all-zero mask. -/
def pick_nth_set_bit (mask : List Bool) (choice : Nat) : Option Nat :=
  if mask.count true = 0 then none
  else scanNth mask choice 0 0

/-- `pick_nth_set_bit` (lines 157-182) with its own uniform draw: draws
`choice` uniformly from `[1, mask.count()]` (one engine output) and scans.
`none` models the failed `assert(mask.any())` on an all-zero mask. -/
def pick_nth_set_bit_rng (mask : List Bool) (s : RngState) : Option Nat :=
  if mask.count true = 0 then none
  else scanNth mask (1 + rawVal s % mask.count true) 0 0

/-- `DefaultGeneratorRng::gen_bin_op` (lines 184-186): pick a uniformly
chosen enabled binary operator from the mask. -/
def DefaultGeneratorRng.gen_bin_op (mask : List Bool) (s : RngState) :
    Option (Nat × RngState) :=
  match pick_nth_set_bit_rng mask s with
  | none => none
  | some op => some (op, bump s (.binOp op))

/-- `DefaultGeneratorRng::gen_un_op` (lines 188-190): pick a uniformly
chosen enabled unary operator from the mask. -/
def DefaultGeneratorRng.gen_un_op (mask : List Bool) (s : RngState) :
    Option (Nat × RngState) :=
  match pick_nth_set_bit_rng mask s with
  | none => none
  | some op => some (op, bump s (.unOp op))

/-- The expression-kind weight slots in enum index order
(`weights.expr_weights()` viewed as the array the selection loop iterates). -/
def exprWeightsList (w : Weights) : List ℚ :=
  [w.expr_weights .IntegerConstant, w.expr_weights .DoubleConstant,
   w.expr_weights .VariableExpr, w.expr_weights .BinaryExpr,
   w.expr_weights .UnaryExpr]

/-- The categorical-selection loop of `gen_expr_kind`/`gen_type_kind`
(lines 233-240 and 255-262): accumulate `running_sum` and return the first
index with `val < running_sum`; `none` if the loop finishes without firing
(the dummy-initialized kind is then kept by the caller). -/
def scanKind : List ℚ → ℚ → ℚ → Nat → Option Nat
  | [], _, _, _ => none
  | q :: rest, val, acc, i =>
    if val < acc + q then some i else scanKind rest val (acc + q) (i + 1)

/-- `DefaultGeneratorRng::gen_expr_kind` (lines 223-243): sum the expression
weights, draw `val` uniformly in `[0, sum)` (one engine output; for a
non-positive sum the degenerate distribution yields 0), and scan for the
first index whose cumulative weight exceeds `val`; if the loop never fires
the dummy-initialized `ExprKind::IntegerConstant` is returned. -/
def DefaultGeneratorRng.gen_expr_kind (w : Weights) (s : RngState) :
    ExprKind × RngState :=
  let ws := exprWeightsList w
  let sum := ws.sum
  let val := if 0 < sum then sum * frac (rawVal s) else 0
  let kind := ExprKind.ofIdx ((scanKind ws val 0 0).getD 0)
  (kind, bump s (.exprKind kind.toIdx))

/-- `DefaultGeneratorRng::gen_cv_qualifiers` (lines 202-216): two
independent Bernoulli draws, const first, then volatile. -/
def DefaultGeneratorRng.gen_cv_qualifiers (cp vp : ℚ) (s : RngState) :
    CvQualifiers × RngState :=
  let c := if frac (rawVal s) < cp then true else false
  let s1 := bump s (.cvConst c)
  let v := if frac (rawVal s1) < vp then true else false
  (⟨c, v⟩, bump s1 (.cvVolatile v))

/-- `DefaultGeneratorRng::gen_type_kind` (lines 245-265): the same
categorical selection as `gen_expr_kind`, over the type-kind weight slots;
the dummy-initialized kind (`TypeKind::ScalarType`, enum value 0) is kept if
the loop never fires. -/
def DefaultGeneratorRng.gen_type_kind (w : Weights) (s : RngState) :
    Nat × RngState :=
  let ws := w.type_weights
  let sum := ws.sum
  let val := if 0 < sum then sum * frac (rawVal s) else 0
  let kind := (scanKind ws val 0 0).getD 0
  (kind, bump s (.typeKind kind))

/-- `ExprGenerator::gen_integer_constant` (lines 34-38). The `Weights`
argument is accepted and ignored, as in the source. -/
def gen_integer_constant (cfg : GenConfig) (_w : Weights) (s : RngState) :
    Expr × RngState :=
  let p := DefaultGeneratorRng.gen_u64 cfg.int_const_min cfg.int_const_max s
  (Expr.IntegerConstant p.1, p.2)

/-- `ExprGenerator::gen_double_constant` (lines 40-45). -/
def gen_double_constant (cfg : GenConfig) (_w : Weights) (s : RngState) :
    Expr × RngState :=
  let p := DefaultGeneratorRng.gen_double cfg.double_constant_min
      cfg.double_constant_max s
  (Expr.DoubleConstant p.1, p.2)

/-- `ExprGenerator::gen_variable_expr` (lines 47-49): no draw is made. -/
def gen_variable_expr (_w : Weights) (s : RngState) : Expr × RngState :=
  (Expr.VariableExpr VAR, s)

/-- `ExprGenerator::maybe_parenthesized` (lines 138-144): wrap the node with
probability `cfg.parenthesize_prob`. -/
def maybe_parenthesized (cfg : GenConfig) (e : Expr) (s : RngState) :
    Expr × RngState :=
  let p := DefaultGeneratorRng.gen_parenthesize cfg.parenthesize_prob s
  (if p.1 then Expr.ParenthesizedExpr e else e, p.2)

/-- The weight mutation of `gen_with_weights` (line 106):
`new_weights[kind] *= cfg_.expr_kind_weights[idx].dampening_factor`, applied
to a copy — exactly the chosen kind's slot changes, type weights and every
other expression slot are untouched. -/
def dampenAt (cfg : GenConfig) (w : Weights) (kind : ExprKind) : Weights :=
  { w with
    expr_weights := fun k =>
      if k = kind then
        w.expr_weights k * (cfg.expr_kind_weights kind).dampening_factor
      else w.expr_weights k }

/-- The LHS parenthesization step of `gen_binary_expr` (lines 66-69): wrap
iff the left child's precedence is numerically strictly greater than the
operator's. -/
def wrap_lhs (pt : PrecTable) (op : Nat) (lhs : Expr) : Expr :=
  if expr_precedence pt lhs > pt.binOp op then Expr.ParenthesizedExpr lhs
  else lhs

/-- The RHS parenthesization step of `gen_binary_expr` (lines 82-85): wrap
iff the right child's precedence is numerically greater than or equal to
the operator's. -/
def wrap_rhs (pt : PrecTable) (op : Nat) (rhs : Expr) : Expr :=
  if expr_precedence pt rhs ≥ pt.binOp op then Expr.ParenthesizedExpr rhs
  else rhs

/-- The operand parenthesization step of `gen_unary_expr` (lines 94-96):
wrap iff the operand's precedence is numerically greater than
`UnaryExpr::PRECEDENCE`. -/
def wrap_operand (pt : PrecTable) (e : Expr) : Expr :=
  if expr_precedence pt e > pt.unaryPrec then Expr.ParenthesizedExpr e
  else e

/-- `ExprGenerator::gen_binary_expr` (lines 51-88), parametrized by the
recursive generator `gen_sub` (the source calls `gen_with_weights`): draw
the operator, generate both children from the same weights, then
parenthesize the LHS on strictly lower precedence (`>` numerically) and the
RHS on lower-or-equal precedence (`≥` numerically). -/
def gen_binary_expr (pt : PrecTable) (cfg : GenConfig)
    (gen_sub : Weights → RngState → Option (Expr × RngState))
    (weights : Weights) (s : RngState) : Option (Expr × RngState) :=
  match DefaultGeneratorRng.gen_bin_op cfg.bin_op_mask s with
  | none => none
  | some (op, s1) =>
    match gen_sub weights s1 with
    | none => none
    | some (lhs0, s2) =>
      match gen_sub weights s2 with
      | none => none
      | some (rhs0, s3) =>
        some (Expr.BinaryExpr (wrap_lhs pt op lhs0) op (wrap_rhs pt op rhs0), s3)

/-- `ExprGenerator::gen_unary_expr` (lines 90-99), parametrized by the
recursive generator `gen_sub`: generate the operand first, then draw the
operator, then parenthesize the operand if its precedence is numerically
greater than `UnaryExpr::PRECEDENCE`. -/
def gen_unary_expr (pt : PrecTable) (cfg : GenConfig)
    (gen_sub : Weights → RngState → Option (Expr × RngState))
    (weights : Weights) (s : RngState) : Option (Expr × RngState) :=
  match gen_sub weights s with
  | none => none
  | some (e0, s1) =>
    match DefaultGeneratorRng.gen_un_op cfg.un_op_mask s1 with
    | none => none
    | some (op, s2) =>
      some (Expr.UnaryExpr op (wrap_operand pt e0), s2)

/-- `ExprGenerator::gen_with_weights` (lines 101-136), fuel-indexed: copy
the weights, draw a kind (the copy still equals the original at draw time),
dampen exactly the chosen kind's slot of the copy, dispatch to the
kind-specific constructor with the dampened copy, and finally apply
`maybe_parenthesized`. Fuel exhaustion yields `none`. -/
def gen_with_weights (pt : PrecTable) (cfg : GenConfig) :
    Nat → Weights → RngState → Option (Expr × RngState)
  | 0, _, _ => none
  | fuel + 1, weights, s =>
    let kp := DefaultGeneratorRng.gen_expr_kind weights s
    let kind := kp.1
    let s1 := kp.2
    let new_weights := dampenAt cfg weights kind
    let res : Option (Expr × RngState) :=
      match kind with
      | .IntegerConstant => some (gen_integer_constant cfg new_weights s1)
      | .DoubleConstant => some (gen_double_constant cfg new_weights s1)
      | .VariableExpr => some (gen_variable_expr new_weights s1)
      | .BinaryExpr =>
        gen_binary_expr pt cfg
          (fun w' s' => gen_with_weights pt cfg fuel w' s') new_weights s1
      | .UnaryExpr =>
        gen_unary_expr pt cfg
          (fun w' s' => gen_with_weights pt cfg fuel w' s') new_weights s1
    match res with
    | none => none
    | some (e, s2) => some (maybe_parenthesized cfg e s2)

/-- The fresh weight vector built by `ExprGenerator::generate`
(lines 146-155): every expression slot is copied from the configuration's
initial weights; the type-kind slots are left as default-constructed values
(the expression path never reads them), modelled as zeros. -/
def initialWeights (cfg : GenConfig) : Weights :=
  { expr_weights := fun k => (cfg.expr_kind_weights k).initial_weight,
    type_weights := cfg.type_kind_weights.map (fun _ => 0) }

/-- `ExprGenerator::generate` (lines 146-155), fuel-indexed: build the
initial weights from configuration and perform one recursive step. -/
def generate (pt : PrecTable) (cfg : GenConfig) (fuel : Nat) (s : RngState) :
    Option (Expr × RngState) :=
  gen_with_weights pt cfg fuel (initialWeights cfg) s

/-- The observable part of a generation result: the tree, the number of
engine outputs consumed, and the draw log (the stream function itself is
dropped). -/
def stProj (p : Expr × RngState) : Expr × Nat × List Draw :=
  (p.1, p.2.counter, p.2.trace)

/-- Two rng states that will behave identically from now on: same cursor,
same log so far, and the same engine outputs at every position the runs can
still consume. -/
def StRel (s1 s2 : RngState) : Prop :=
  s1.counter = s2.counter ∧ s1.trace = s2.trace ∧
    ∀ i, s1.counter ≤ i → s1.stream i = s2.stream i

/-- Result correspondence for two generator runs: both fail, or both
succeed with the same tree and related states. -/
def OptRel : Option (Expr × RngState) → Option (Expr × RngState) → Prop
  | none, none => True
  | some p1, some p2 => p1.1 = p2.1 ∧ StRel p1.2 p2.2
  | _, _ => False

/-- Agreement of two configurations on every field the expression path
reads (everything except `const_prob`, `volatile_prob` and the type-kind
weight table). -/
def cfgExprAgree (c1 c2 : GenConfig) : Prop :=
  c1.int_const_min = c2.int_const_min ∧
  c1.int_const_max = c2.int_const_max ∧
  c1.double_constant_min = c2.double_constant_min ∧
  c1.double_constant_max = c2.double_constant_max ∧
  c1.bin_op_mask = c2.bin_op_mask ∧
  c1.un_op_mask = c2.un_op_mask ∧
  c1.parenthesize_prob = c2.parenthesize_prob ∧
  c1.expr_kind_weights = c2.expr_kind_weights

/-- Draws issued by the expression path: everything except the cv-qualifier
and type-kind draws. -/
def Draw.isExprDraw : Draw → Bool
  | .typeKind _ => false
  | .cvConst _ => false
  | .cvVolatile _ => false
  | _ => true

/-- State `s'` is reachable from `s` by expression-path draws only: the
cursor has advanced and the log grew by a suffix of expression draws. -/
def Extends (s s' : RngState) : Prop :=
  s.counter ≤ s'.counter ∧
    ∃ t, s'.trace = s.trace ++ t ∧ ∀ d ∈ t, d.isExprDraw = true

/-- A concrete all-zeros engine stream, used for concrete runs. -/
def stream0 : Nat → Nat := fun _ => 0

/-- A fresh rng state over the all-zeros stream. -/
def st0 : RngState := ⟨stream0, 0, []⟩

/-- A concrete modelled precedence table: every binary operator at
precedence 4, `UnaryExpr::PRECEDENCE` at 3 (unary binds tighter than any
binary operator, leaves and parens tightest). -/
def pt0 : PrecTable := ⟨fun _ => 4, 3⟩

/-- A concrete base configuration for concrete runs. -/
def baseCfg : GenConfig :=
  { int_const_min := 0, int_const_max := 0,
    double_constant_min := 0, double_constant_max := 0,
    bin_op_mask := [true], un_op_mask := [true],
    parenthesize_prob := 0, const_prob := 0, volatile_prob := 0,
    expr_kind_weights := fun _ => ⟨0, 1⟩,
    type_kind_weights := [] }

/-- Configuration drawing only `IntegerConstant`, with `parenthesize_prob`
set to 1. -/
def cfgInt : GenConfig :=
  { baseCfg with
    expr_kind_weights := fun k =>
      match k with
      | .IntegerConstant => ⟨1, 1⟩
      | _ => ⟨0, 1⟩,
    parenthesize_prob := 1 }

/-- Configuration whose first draw is forced to `UnaryExpr` (only nonzero
initial weight), dampened to zero afterwards so the operand becomes the
fallback `IntegerConstant`. -/
def cfgUn : GenConfig :=
  { baseCfg with
    expr_kind_weights := fun k =>
      match k with
      | .UnaryExpr => ⟨1, 0⟩
      | _ => ⟨0, 1⟩ }

/-- Configuration whose first draw is forced to `BinaryExpr` (only nonzero
initial weight), dampened to zero afterwards so both children become the
fallback `IntegerConstant`. -/
def cfgBin : GenConfig :=
  { baseCfg with
    expr_kind_weights := fun k =>
      match k with
      | .BinaryExpr => ⟨1, 0⟩
      | _ => ⟨0, 1⟩ }

/-- The all-zero weight vector. -/
def zeroW : Weights := ⟨fun _ => 0, []⟩

/-- Configuration drawing only `IntegerConstant`, with `parenthesize_prob`
kept at 0. -/
def cfgIntPlain : GenConfig :=
  { baseCfg with
    expr_kind_weights := fun k =>
      match k with
      | .IntegerConstant => ⟨1, 1⟩
      | _ => ⟨0, 1⟩ }

/-- `baseCfg` with different cv-qualifier probabilities and type-kind
weight table. -/
def cfgCv : GenConfig :=
  { baseCfg with
    const_prob := 1, volatile_prob := 1,
    type_kind_weights := [⟨1, 1⟩] }

/-- A concrete child generator stub used to exercise the per-kind
constructors at a concrete input. -/
def gsStub : Weights → RngState → Option (Expr × RngState) :=
  fun _ _ => some (Expr.IntegerConstant 0, st0)

/-- A parenthesized expression is never structurally equal to its inner
expression (the wrapper strictly grows the tree). -/
theorem paren_ne (e : Expr) : Expr.ParenthesizedExpr e ≠ e := by
  induction e with
  | ParenthesizedExpr inner ih => intro h; exact ih (Expr.ParenthesizedExpr.inj h)
  | IntegerConstant v => intro h; cases h
  | DoubleConstant v => intro h; cases h
  | VariableExpr n => intro h; cases h
  | BinaryExpr l o r ihl ihr => intro h; cases h
  | UnaryExpr o a ih => intro h; cases h

/-- `wrap_lhs` actually wraps exactly under the source's condition. -/
theorem wrap_lhs_eq_paren_iff (pt : PrecTable) (op : Nat) (lhs : Expr) :
    wrap_lhs pt op lhs = Expr.ParenthesizedExpr lhs ↔
      expr_precedence pt lhs > pt.binOp op := by
  unfold wrap_lhs
  split
  · exact iff_of_true rfl (by assumption)
  · exact iff_of_false (paren_ne lhs ∘ Eq.symm) (by assumption)

/-- `wrap_rhs` actually wraps exactly under the source's condition. -/
theorem wrap_rhs_eq_paren_iff (pt : PrecTable) (op : Nat) (rhs : Expr) :
    wrap_rhs pt op rhs = Expr.ParenthesizedExpr rhs ↔
      expr_precedence pt rhs ≥ pt.binOp op := by
  unfold wrap_rhs
  split
  · exact iff_of_true rfl (by assumption)
  · exact iff_of_false (paren_ne rhs ∘ Eq.symm) (by assumption)

/-- `wrap_operand` actually wraps exactly under the source's condition. -/
theorem wrap_operand_eq_paren_iff (pt : PrecTable) (e : Expr) :
    wrap_operand pt e = Expr.ParenthesizedExpr e ↔
      expr_precedence pt e > pt.unaryPrec := by
  unfold wrap_operand
  split
  · exact iff_of_true rfl (by assumption)
  · exact iff_of_false (paren_ne e ∘ Eq.symm) (by assumption)

/-- After the LHS step, the left child binds at least as tightly as the
operator. -/
theorem wrap_lhs_prec_le (pt : PrecTable) (op : Nat) (lhs : Expr) :
    expr_precedence pt (wrap_lhs pt op lhs) ≤ pt.binOp op := by
  unfold wrap_lhs
  split
  · simp [expr_precedence]
  · omega

/-- After the RHS step, the right child binds strictly tighter than the
operator, provided binary operators have positive precedence. -/
theorem wrap_rhs_prec_lt (pt : PrecTable) (op : Nat) (rhs : Expr)
    (hpos : 0 < pt.binOp op) :
    expr_precedence pt (wrap_rhs pt op rhs) < pt.binOp op := by
  unfold wrap_rhs
  split
  · simpa [expr_precedence] using hpos
  · omega

/-- C1: every `BinaryExpr` produced by `gen_binary_expr` is
`BinaryExpr (wrap_lhs pt op lhs0) op (wrap_rhs pt op rhs0)`; the left child
was wrapped in `ParenthesizedExpr` iff its precedence is numerically
strictly greater than the operator's, the right child iff its precedence is
greater than or equal to the operator's; consequently (binary operator
precedences being positive, as every binary operator binds more weakly than
`UnaryExpr::PRECEDENCE` ≥ 0) the final left child's precedence is at most
the operator's and the final right child's is strictly below it. -/
theorem gen_binary_expr_parenthesization (pt : PrecTable) (cfg : GenConfig)
    (gen_sub : Weights → RngState → Option (Expr × RngState)) (w : Weights)
    (s : RngState) (e : Expr) (s' : RngState)
    (hpos : ∀ o, 0 < pt.binOp o)
    (h : gen_binary_expr pt cfg gen_sub w s = some (e, s')) :
    ∃ op lhs0 rhs0,
      e = Expr.BinaryExpr (wrap_lhs pt op lhs0) op (wrap_rhs pt op rhs0) ∧
      (wrap_lhs pt op lhs0 = Expr.ParenthesizedExpr lhs0 ↔
        expr_precedence pt lhs0 > pt.binOp op) ∧
      (wrap_rhs pt op rhs0 = Expr.ParenthesizedExpr rhs0 ↔
        expr_precedence pt rhs0 ≥ pt.binOp op) ∧
      expr_precedence pt (wrap_lhs pt op lhs0) ≤ pt.binOp op ∧
      expr_precedence pt (wrap_rhs pt op rhs0) < pt.binOp op := by
  unfold gen_binary_expr at h
  cases hbo : DefaultGeneratorRng.gen_bin_op cfg.bin_op_mask s with
  | none => rw [hbo] at h; simp at h
  | some p =>
    obtain ⟨op, s1⟩ := p
    rw [hbo] at h
    dsimp only at h
    cases h1 : gen_sub w s1 with
    | none => rw [h1] at h; simp at h
    | some q =>
      obtain ⟨lhs0, s2⟩ := q
      rw [h1] at h
      dsimp only at h
      cases h2 : gen_sub w s2 with
      | none => rw [h2] at h; simp at h
      | some r =>
        obtain ⟨rhs0, s3⟩ := r
        rw [h2] at h
        dsimp only at h
        simp only [Option.some.injEq, Prod.mk.injEq] at h
        exact ⟨op, lhs0, rhs0, h.1.symm, wrap_lhs_eq_paren_iff pt op lhs0,
          wrap_rhs_eq_paren_iff pt op rhs0, wrap_lhs_prec_le pt op lhs0,
          wrap_rhs_prec_lt pt op rhs0 (hpos op)⟩

/-- C9: every node produced by `gen_unary_expr` is
`UnaryExpr op (wrap_operand pt e0)` for the generated operand `e0`, and the
operand was wrapped in `ParenthesizedExpr` iff its precedence is
numerically strictly greater than the fixed `UnaryExpr::PRECEDENCE`. -/
theorem gen_unary_expr_parenthesization (pt : PrecTable) (cfg : GenConfig)
    (gen_sub : Weights → RngState → Option (Expr × RngState)) (w : Weights)
    (s : RngState) (e : Expr) (s' : RngState)
    (h : gen_unary_expr pt cfg gen_sub w s = some (e, s')) :
    ∃ op e0,
      e = Expr.UnaryExpr op (wrap_operand pt e0) ∧
      (wrap_operand pt e0 = Expr.ParenthesizedExpr e0 ↔
        expr_precedence pt e0 > pt.unaryPrec) := by
  unfold gen_unary_expr at h
  cases h1 : gen_sub w s with
  | none => rw [h1] at h; simp at h
  | some p =>
    obtain ⟨e0, s1⟩ := p
    rw [h1] at h
    dsimp only at h
    cases huo : DefaultGeneratorRng.gen_un_op cfg.un_op_mask s1 with
    | none => rw [huo] at h; simp at h
    | some q =>
      obtain ⟨op, s2⟩ := q
      rw [huo] at h
      dsimp only at h
      simp only [Option.some.injEq, Prod.mk.injEq] at h
      exact ⟨op, e0, h.1.symm, wrap_operand_eq_paren_iff pt e0⟩

/-- Number of set bits among the first `n` mask positions. -/
def setBitsUpTo (mask : List Bool) (n : Nat) : Nat := (mask.take n).count true

theorem setBitsUpTo_nil (n : Nat) : setBitsUpTo [] n = 0 := by
  simp [setBitsUpTo]

theorem setBitsUpTo_cons_succ (b : Bool) (rest : List Bool) (n : Nat) :
    setBitsUpTo (b :: rest) (n + 1) =
      setBitsUpTo rest n + (if b then 1 else 0) := by
  cases b <;> simp [setBitsUpTo, List.take_succ_cons, List.count_cons]

theorem setBitsUpTo_le_count (mask : List Bool) (n : Nat) :
    setBitsUpTo mask n ≤ mask.count true :=
  List.Sublist.count_le (List.take_sublist n mask) true

/-- A set bit at position `k` is counted by `setBitsUpTo` at `k + 1`. -/
theorem setBitsUpTo_pos (mask : List Bool) :
    ∀ k, mask.getD k false = true → 0 < setBitsUpTo mask (k + 1) := by
  induction mask with
  | nil => intro k h; rw [List.getD_nil] at h; cases h
  | cons b rest ih =>
    intro k h
    cases k with
    | zero =>
      rw [List.getD_cons_zero] at h
      subst h
      rw [setBitsUpTo_cons_succ]
      simp
    | succ k' =>
      rw [List.getD_cons_succ] at h
      rw [setBitsUpTo_cons_succ]
      have := ih k' h
      omega

/-- Characterization of the scanning loop: started with `running_ones = r`
below the target `choice = c` and absolute position `i`, it returns `some j`
exactly when `j` addresses a set bit that is the `(c - r)`-th set bit. -/
theorem scanNth_eq_some_iff (mask : List Bool) :
    ∀ c r i j, r < c →
      (scanNth mask c r i = some j ↔
        ∃ k, j = i + k ∧ mask.getD k false = true ∧
          setBitsUpTo mask (k + 1) + r = c) := by
  induction mask with
  | nil =>
    intro c r i j hrc
    constructor
    · intro h; cases h
    · rintro ⟨k, -, hbit, -⟩
      rw [List.getD_nil] at hbit
      cases hbit
  | cons b rest ih =>
    intro c r i j hrc
    cases b with
    | false =>
      have hne : ¬ (r = c) := by omega
      rw [show scanNth (false :: rest) c r i = scanNth rest c r (i + 1) by
        simp [scanNth, hne]]
      rw [ih c r (i + 1) j hrc]
      constructor
      · rintro ⟨k', h1, h2, h3⟩
        refine ⟨k' + 1, by omega, by rwa [List.getD_cons_succ], ?_⟩
        rw [setBitsUpTo_cons_succ]
        simpa using h3
      · rintro ⟨k, h1, h2, h3⟩
        cases k with
        | zero => rw [List.getD_cons_zero] at h2; cases h2
        | succ k' =>
          rw [List.getD_cons_succ] at h2
          rw [setBitsUpTo_cons_succ] at h3
          exact ⟨k', by omega, h2, by simpa using h3⟩
    | true =>
      by_cases hc : r + 1 = c
      · rw [show scanNth (true :: rest) c r i = some i by simp [scanNth, hc]]
        constructor
        · intro hj
          refine ⟨0, by cases hj; omega, List.getD_cons_zero, ?_⟩
          rw [setBitsUpTo_cons_succ, setBitsUpTo]
          simp
          omega
        · rintro ⟨k, h1, h2, h3⟩
          cases k with
          | zero => simp [h1]
          | succ k' =>
            exfalso
            rw [List.getD_cons_succ] at h2
            rw [setBitsUpTo_cons_succ] at h3
            simp at h3
            have := setBitsUpTo_pos rest k' h2
            omega
      · have hrc' : r + 1 < c := by omega
        rw [show scanNth (true :: rest) c r i = scanNth rest c (r + 1) (i + 1) by
          simp [scanNth, hc]]
        rw [ih c (r + 1) (i + 1) j hrc']
        constructor
        · rintro ⟨k', h1, h2, h3⟩
          refine ⟨k' + 1, by omega, by rwa [List.getD_cons_succ], ?_⟩
          rw [setBitsUpTo_cons_succ]
          simp
          omega
        · rintro ⟨k, h1, h2, h3⟩
          cases k with
          | zero =>
            exfalso
            rw [setBitsUpTo_cons_succ, setBitsUpTo] at h3
            simp at h3
            omega
          | succ k' =>
            rw [List.getD_cons_succ] at h2
            rw [setBitsUpTo_cons_succ] at h3
            exact ⟨k', by omega, h2, by simp at h3; omega⟩

/-- Every admissible target count is hit at some set position. -/
theorem exists_scan_hit (mask : List Bool) :
    ∀ c, 1 ≤ c → c ≤ mask.count true →
      ∃ k, mask.getD k false = true ∧ setBitsUpTo mask (k + 1) = c := by
  induction mask with
  | nil =>
    intro c h1 h2
    simp at h2
    omega
  | cons b rest ih =>
    intro c h1 h2
    cases b with
    | false =>
      have h2' : c ≤ rest.count true := by
        simpa [List.count_cons] using h2
      obtain ⟨k, hbit, hcount⟩ := ih c h1 h2'
      refine ⟨k + 1, by rwa [List.getD_cons_succ], ?_⟩
      rw [setBitsUpTo_cons_succ]
      simp [hcount]
    | true =>
      by_cases hc : c = 1
      · subst hc
        refine ⟨0, List.getD_cons_zero, ?_⟩
        rw [setBitsUpTo_cons_succ, setBitsUpTo]
        simp
      · have hcnt : (true :: rest).count true = rest.count true + 1 := by
          simp [List.count_cons]
        have h1' : 1 ≤ c - 1 := by omega
        have h2' : c - 1 ≤ rest.count true := by omega
        obtain ⟨k, hbit, hcount⟩ := ih (c - 1) h1' h2'
        refine ⟨k + 1, by rwa [List.getD_cons_succ], ?_⟩
        rw [setBitsUpTo_cons_succ]
        simp
        omega

/-- C2: for a mask with at least one set bit and any draw
`c ∈ [1, popcount]`, `pick_nth_set_bit` returns the position of the `c`-th
set bit: the returned position always carries a set bit (an unset position
is never returned), the draw value is recovered as the number of set bits
up to and including the returned position (so distinct draws return
distinct positions), and conversely every set position is returned for
exactly its own draw value — the draw-to-position mapping is a bijection
from `[1, popcount]` onto the set positions, giving each set position
probability `1/popcount` under a uniform draw. -/
theorem pick_nth_set_bit_spec (mask : List Bool) (c : Nat)
    (h1 : 1 ≤ c) (h2 : c ≤ mask.count true) :
    (∃ i, pick_nth_set_bit mask c = some i ∧ mask.getD i false = true ∧
      setBitsUpTo mask (i + 1) = c) ∧
    (∀ c' i, 1 ≤ c' → pick_nth_set_bit mask c' = some i →
      c' = setBitsUpTo mask (i + 1)) ∧
    (∀ i, mask.getD i false = true →
      pick_nth_set_bit mask (setBitsUpTo mask (i + 1)) = some i) := by
  have hcnt : mask.count true ≠ 0 := by omega
  refine ⟨?_, ?_, ?_⟩
  · obtain ⟨k, hbit, hcount⟩ := exists_scan_hit mask c h1 h2
    refine ⟨k, ?_, hbit, hcount⟩
    rw [pick_nth_set_bit, if_neg hcnt]
    rw [scanNth_eq_some_iff mask c 0 0 k (by omega)]
    exact ⟨k, by omega, hbit, by omega⟩
  · intro c' i h1' hpick
    rw [pick_nth_set_bit, if_neg hcnt] at hpick
    rw [scanNth_eq_some_iff mask c' 0 0 i (by omega)] at hpick
    obtain ⟨k, hk, -, hcount⟩ := hpick
    have hki : k = i := by omega
    subst hki
    omega
  · intro i hbit
    have hpos := setBitsUpTo_pos mask i hbit
    rw [pick_nth_set_bit, if_neg hcnt]
    rw [scanNth_eq_some_iff mask (setBitsUpTo mask (i + 1)) 0 0 i (by omega)]
    exact ⟨i, by omega, hbit, by omega⟩

/-- C3 (amended): the two selection primitives treat degenerate domains
differently. `pick_nth_set_bit` on an all-zero mask fails its
`assert(mask.any())` (modelled `none`); `gen_expr_kind` on an all-zero
weight vector does not fail: the selection loop never fires, so the
function falls through and returns the dummy-initialized
`ExprKind::IntegerConstant` — the zero/default kind — as an ordinary
value. -/
theorem selection_degenerate_domains (mask : List Bool) (s s2 : RngState)
    (w : Weights) (hmask : mask.count true = 0)
    (hzero : ∀ k, w.expr_weights k = 0) :
    pick_nth_set_bit_rng mask s = none ∧
    (DefaultGeneratorRng.gen_expr_kind w s2).1 = ExprKind.IntegerConstant := by
  constructor
  · rw [pick_nth_set_bit_rng, if_pos hmask]
  · simp [DefaultGeneratorRng.gen_expr_kind, exprWeightsList, hzero,
      scanKind, ExprKind.ofIdx]

/-- Inversion for `gen_binary_expr`: a successful run splits into the
operator draw and the two child generations, both children generated from
the same weight vector, and the result is assembled from the wrap steps. -/
theorem gen_binary_expr_inv (pt : PrecTable) (cfg : GenConfig)
    (gs : Weights → RngState → Option (Expr × RngState)) (w : Weights)
    (s : RngState) (e : Expr) (s'' : RngState)
    (h : gen_binary_expr pt cfg gs w s = some (e, s'')) :
    ∃ op s1 lhs0 s2 rhs0,
      DefaultGeneratorRng.gen_bin_op cfg.bin_op_mask s = some (op, s1) ∧
      gs w s1 = some (lhs0, s2) ∧
      gs w s2 = some (rhs0, s'') ∧
      e = Expr.BinaryExpr (wrap_lhs pt op lhs0) op (wrap_rhs pt op rhs0) := by
  unfold gen_binary_expr at h
  cases hbo : DefaultGeneratorRng.gen_bin_op cfg.bin_op_mask s with
  | none => rw [hbo] at h; simp at h
  | some p =>
    obtain ⟨op, s1⟩ := p
    rw [hbo] at h
    dsimp only at h
    cases h1 : gs w s1 with
    | none => rw [h1] at h; simp at h
    | some q =>
      obtain ⟨lhs0, s2⟩ := q
      rw [h1] at h
      dsimp only at h
      cases h2 : gs w s2 with
      | none => rw [h2] at h; simp at h
      | some r =>
        obtain ⟨rhs0, s3⟩ := r
        rw [h2] at h
        dsimp only at h
        simp only [Option.some.injEq, Prod.mk.injEq] at h
        exact ⟨op, s1, lhs0, s2, rhs0, rfl, h1, by rw [h2, h.2], h.1.symm⟩

set_option maxHeartbeats 2000000 in
/-- C5: each recursive step works on a fresh copy of the weights: after the
kind draw, exactly the drawn kind's expression slot of the copy is
multiplied by its dampening factor — every other expression slot and the
type-kind slots are unchanged (and the caller's vector, a pure value, is
untouched); the dispatch for a drawn `BinaryExpr` passes that once-dampened
copy to `gen_binary_expr`, which hands the very same vector to both the
left and the right child generation. -/
theorem gen_with_weights_dampening_frame (pt : PrecTable) (cfg : GenConfig)
    (fuel : Nat) (w : Weights) (s : RngState) (k : ExprKind)
    (hk : (DefaultGeneratorRng.gen_expr_kind w s).1 = k) :
    (dampenAt cfg w k).expr_weights k =
      w.expr_weights k * (cfg.expr_kind_weights k).dampening_factor ∧
    (∀ j, j ≠ k → (dampenAt cfg w k).expr_weights j = w.expr_weights j) ∧
    (dampenAt cfg w k).type_weights = w.type_weights ∧
    (k = ExprKind.BinaryExpr →
      gen_with_weights pt cfg (fuel + 1) w s =
        match gen_binary_expr pt cfg
            (fun w' s' => gen_with_weights pt cfg fuel w' s')
            (dampenAt cfg w k) (DefaultGeneratorRng.gen_expr_kind w s).2 with
        | none => none
        | some (e, s2) => some (maybe_parenthesized cfg e s2)) ∧
    (∀ gs w' s' e s'', gen_binary_expr pt cfg gs w' s' = some (e, s'') →
      ∃ op s1 lhs0 s2 rhs0,
        DefaultGeneratorRng.gen_bin_op cfg.bin_op_mask s' = some (op, s1) ∧
        gs w' s1 = some (lhs0, s2) ∧
        gs w' s2 = some (rhs0, s'') ∧
        e = Expr.BinaryExpr (wrap_lhs pt op lhs0) op (wrap_rhs pt op rhs0)) := by
  refine ⟨by simp [dampenAt], ?_, rfl, ?_, ?_⟩
  · intro j hj
    simp [dampenAt, hj]
  · intro hkb
    subst hkb
    show gen_with_weights pt cfg (fuel + 1) w s = _
    rw [gen_with_weights]
    rw [hk]
  · intro gs w' s' e s'' h
    exact gen_binary_expr_inv pt cfg gs w' s' e s'' h

theorem stRel_refl (s : RngState) : StRel s s := ⟨Eq.refl _, Eq.refl _, fun _ _ => Eq.refl _⟩

theorem StRel.rawVal_eq {s1 s2 : RngState} (h : StRel s1 s2) :
    rawVal s1 = rawVal s2 := by
  obtain ⟨hc, -, hs⟩ := h
  rw [rawVal, rawVal, ← hc]
  exact hs _ (Nat.le_refl _)

theorem StRel.bump_rel {s1 s2 : RngState} (h : StRel s1 s2) (d : Draw) :
    StRel (bump s1 d) (bump s2 d) := by
  obtain ⟨hc, ht, hs⟩ := h
  refine ⟨by simp [bump, hc], by simp [bump, ht], ?_⟩
  intro i hi
  simp only [bump] at hi ⊢
  exact hs i (by omega)

theorem dampenAt_expr_congr {c1 c2 : GenConfig}
    (hek : c1.expr_kind_weights = c2.expr_kind_weights) {w1 w2 : Weights}
    (hw : w1.expr_weights = w2.expr_weights) (k : ExprKind) :
    (dampenAt c1 w1 k).expr_weights = (dampenAt c2 w2 k).expr_weights := by
  funext j
  simp [dampenAt, hw, hek]

theorem gen_expr_kind_val_congr {w1 w2 : Weights}
    (hw : w1.expr_weights = w2.expr_weights) {s1 s2 : RngState}
    (hs : StRel s1 s2) :
    (DefaultGeneratorRng.gen_expr_kind w1 s1).1 =
      (DefaultGeneratorRng.gen_expr_kind w2 s2).1 := by
  simp [DefaultGeneratorRng.gen_expr_kind, exprWeightsList, hw, hs.rawVal_eq]

theorem gen_expr_kind_st_congr {w1 w2 : Weights}
    (hw : w1.expr_weights = w2.expr_weights) {s1 s2 : RngState}
    (hs : StRel s1 s2) :
    StRel (DefaultGeneratorRng.gen_expr_kind w1 s1).2
      (DefaultGeneratorRng.gen_expr_kind w2 s2).2 := by
  have h1 : (DefaultGeneratorRng.gen_expr_kind w1 s1).2 =
      bump s1 (.exprKind (DefaultGeneratorRng.gen_expr_kind w1 s1).1.toIdx) := rfl
  have h2 : (DefaultGeneratorRng.gen_expr_kind w2 s2).2 =
      bump s2 (.exprKind (DefaultGeneratorRng.gen_expr_kind w2 s2).1.toIdx) := rfl
  rw [h1, h2, gen_expr_kind_val_congr hw hs]
  exact hs.bump_rel _

theorem maybe_parenthesized_congr {c1 c2 : GenConfig}
    (hp : c1.parenthesize_prob = c2.parenthesize_prob) (e : Expr)
    {t1 t2 : RngState} (h : StRel t1 t2) :
    (maybe_parenthesized c1 e t1).1 = (maybe_parenthesized c2 e t2).1 ∧
    StRel (maybe_parenthesized c1 e t1).2 (maybe_parenthesized c2 e t2).2 := by
  have hv := h.rawVal_eq
  constructor
  · simp [maybe_parenthesized, DefaultGeneratorRng.gen_parenthesize, hp, hv]
  · have e1 : (maybe_parenthesized c1 e t1).2 = bump t1
        (.paren (if frac (rawVal t1) < c1.parenthesize_prob then true else false)) := rfl
    have e2 : (maybe_parenthesized c2 e t2).2 = bump t2
        (.paren (if frac (rawVal t2) < c2.parenthesize_prob then true else false)) := rfl
    rw [e1, e2, hv, hp]
    exact h.bump_rel _

theorem optrel_some_mp {c1 c2 : GenConfig}
    (hp : c1.parenthesize_prob = c2.parenthesize_prob)
    {p1 p2 : Expr × RngState} (he : p1.1 = p2.1) (h : StRel p1.2 p2.2) :
    OptRel (some (maybe_parenthesized c1 p1.1 p1.2))
      (some (maybe_parenthesized c2 p2.1 p2.2)) := by
  rw [← he]
  exact maybe_parenthesized_congr hp p1.1 h

theorem gen_integer_constant_congr {c1 c2 : GenConfig}
    (hmin : c1.int_const_min = c2.int_const_min)
    (hmax : c1.int_const_max = c2.int_const_max) (w1 w2 : Weights)
    {t1 t2 : RngState} (h : StRel t1 t2) :
    (gen_integer_constant c1 w1 t1).1 = (gen_integer_constant c2 w2 t2).1 ∧
    StRel (gen_integer_constant c1 w1 t1).2 (gen_integer_constant c2 w2 t2).2 := by
  have hv := h.rawVal_eq
  constructor
  · simp [gen_integer_constant, DefaultGeneratorRng.gen_u64, hmin, hmax, hv]
  · have e1 : (gen_integer_constant c1 w1 t1).2 = bump t1
        (.u64 (c1.int_const_min + rawVal t1 % (c1.int_const_max - c1.int_const_min + 1))) := rfl
    have e2 : (gen_integer_constant c2 w2 t2).2 = bump t2
        (.u64 (c2.int_const_min + rawVal t2 % (c2.int_const_max - c2.int_const_min + 1))) := rfl
    rw [e1, e2, hv, hmin, hmax]
    exact h.bump_rel _

theorem gen_double_constant_congr {c1 c2 : GenConfig}
    (hmin : c1.double_constant_min = c2.double_constant_min)
    (hmax : c1.double_constant_max = c2.double_constant_max) (w1 w2 : Weights)
    {t1 t2 : RngState} (h : StRel t1 t2) :
    (gen_double_constant c1 w1 t1).1 = (gen_double_constant c2 w2 t2).1 ∧
    StRel (gen_double_constant c1 w1 t1).2 (gen_double_constant c2 w2 t2).2 := by
  have hv := h.rawVal_eq
  constructor
  · simp [gen_double_constant, DefaultGeneratorRng.gen_double, hmin, hmax, hv]
  · have e1 : (gen_double_constant c1 w1 t1).2 = bump t1
        (.dbl (c1.double_constant_min +
          (c1.double_constant_max - c1.double_constant_min) * frac (rawVal t1))) := rfl
    have e2 : (gen_double_constant c2 w2 t2).2 = bump t2
        (.dbl (c2.double_constant_min +
          (c2.double_constant_max - c2.double_constant_min) * frac (rawVal t2))) := rfl
    rw [e1, e2, hv, hmin, hmax]
    exact h.bump_rel _

theorem gen_binary_expr_congr (pt : PrecTable) {c1 c2 : GenConfig}
    (hmask : c1.bin_op_mask = c2.bin_op_mask)
    {g1 g2 : Weights → RngState → Option (Expr × RngState)}
    {w1 w2 : Weights} {s1 s2 : RngState}
    (hg : ∀ t1 t2, StRel t1 t2 → OptRel (g1 w1 t1) (g2 w2 t2))
    (hs : StRel s1 s2) :
    OptRel (gen_binary_expr pt c1 g1 w1 s1) (gen_binary_expr pt c2 g2 w2 s2) := by
  unfold gen_binary_expr DefaultGeneratorRng.gen_bin_op
  rw [← hmask]
  have hpick : pick_nth_set_bit_rng c1.bin_op_mask s2 =
      pick_nth_set_bit_rng c1.bin_op_mask s1 := by
    simp [pick_nth_set_bit_rng, hs.rawVal_eq]
  rw [hpick]
  cases hpo : pick_nth_set_bit_rng c1.bin_op_mask s1 with
  | none => dsimp only; trivial
  | some op =>
    dsimp only
    have hrel1 : StRel (bump s1 (.binOp op)) (bump s2 (.binOp op)) := hs.bump_rel _
    have h1 := hg _ _ hrel1
    cases hl1 : g1 w1 (bump s1 (.binOp op)) with
    | none =>
      rw [hl1] at h1
      cases hl2 : g2 w2 (bump s2 (.binOp op)) with
      | none => dsimp only; trivial
      | some p2 => rw [hl2] at h1; exact h1.elim
    | some p1 =>
      rw [hl1] at h1
      cases hl2 : g2 w2 (bump s2 (.binOp op)) with
      | none => rw [hl2] at h1; exact h1.elim
      | some p2 =>
        rw [hl2] at h1
        obtain ⟨he1, hr1⟩ := h1
        dsimp only
        have h2 := hg _ _ hr1
        cases hm1 : g1 w1 p1.2 with
        | none =>
          rw [hm1] at h2
          cases hm2 : g2 w2 p2.2 with
          | none => dsimp only; trivial
          | some q2 => rw [hm2] at h2; exact h2.elim
        | some q1 =>
          rw [hm1] at h2
          cases hm2 : g2 w2 p2.2 with
          | none => rw [hm2] at h2; exact h2.elim
          | some q2 =>
            rw [hm2] at h2
            obtain ⟨he2, hr2⟩ := h2
            dsimp only
            exact ⟨by rw [he1, he2], hr2⟩

theorem gen_unary_expr_congr (pt : PrecTable) {c1 c2 : GenConfig}
    (hmask : c1.un_op_mask = c2.un_op_mask)
    {g1 g2 : Weights → RngState → Option (Expr × RngState)}
    {w1 w2 : Weights} {s1 s2 : RngState}
    (hg : ∀ t1 t2, StRel t1 t2 → OptRel (g1 w1 t1) (g2 w2 t2))
    (hs : StRel s1 s2) :
    OptRel (gen_unary_expr pt c1 g1 w1 s1) (gen_unary_expr pt c2 g2 w2 s2) := by
  unfold gen_unary_expr DefaultGeneratorRng.gen_un_op
  rw [← hmask]
  have h1 := hg _ _ hs
  cases hl1 : g1 w1 s1 with
  | none =>
    rw [hl1] at h1
    cases hl2 : g2 w2 s2 with
    | none => dsimp only; trivial
    | some p2 => rw [hl2] at h1; exact h1.elim
  | some p1 =>
    rw [hl1] at h1
    cases hl2 : g2 w2 s2 with
    | none => rw [hl2] at h1; exact h1.elim
    | some p2 =>
      rw [hl2] at h1
      obtain ⟨he1, hr1⟩ := h1
      dsimp only
      have hpick : pick_nth_set_bit_rng c1.un_op_mask p2.2 =
          pick_nth_set_bit_rng c1.un_op_mask p1.2 := by
        simp [pick_nth_set_bit_rng, hr1.rawVal_eq]
      rw [hpick]
      cases hpo : pick_nth_set_bit_rng c1.un_op_mask p1.2 with
      | none => dsimp only; trivial
      | some op =>
        dsimp only
        exact ⟨by rw [he1], hr1.bump_rel _⟩

set_option maxHeartbeats 4000000 in
theorem gen_with_weights_congr (pt : PrecTable) :
    ∀ (fuel : Nat) (c1 c2 : GenConfig) (w1 w2 : Weights) (s1 s2 : RngState),
      cfgExprAgree c1 c2 → w1.expr_weights = w2.expr_weights → StRel s1 s2 →
      OptRel (gen_with_weights pt c1 fuel w1 s1)
        (gen_with_weights pt c2 fuel w2 s2) := by
  intro fuel
  induction fuel with
  | zero =>
    intro c1 c2 w1 w2 s1 s2 _ _ _
    rw [gen_with_weights, gen_with_weights]
    trivial
  | succ fuel ih =>
    intro c1 c2 w1 w2 s1 s2 hcfg hw hs
    obtain ⟨hicmin, hicmax, hdcmin, hdcmax, hbm, hum, hpp, hekw⟩ := hcfg
    rw [gen_with_weights, gen_with_weights]
    have hkv := gen_expr_kind_val_congr hw hs
    have hkr := gen_expr_kind_st_congr hw hs
    have hnw := dampenAt_expr_congr hekw hw
      ((DefaultGeneratorRng.gen_expr_kind w1 s1).1)
    rw [← hkv]
    cases hk : (DefaultGeneratorRng.gen_expr_kind w1 s1).1 with
    | IntegerConstant =>
      dsimp only
      obtain ⟨hv, hr⟩ := gen_integer_constant_congr hicmin hicmax
        (dampenAt c1 w1 .IntegerConstant) (dampenAt c2 w2 .IntegerConstant) hkr
      exact optrel_some_mp hpp hv hr
    | DoubleConstant =>
      dsimp only
      obtain ⟨hv, hr⟩ := gen_double_constant_congr hdcmin hdcmax
        (dampenAt c1 w1 .DoubleConstant) (dampenAt c2 w2 .DoubleConstant) hkr
      exact optrel_some_mp hpp hv hr
    | VariableExpr =>
      dsimp only
      exact optrel_some_mp hpp (Eq.refl (Expr.VariableExpr VAR)) hkr
    | BinaryExpr =>
      dsimp only
      have hopt := gen_binary_expr_congr pt hbm
        (fun t1 t2 ht => ih c1 c2 (dampenAt c1 w1 .BinaryExpr)
          (dampenAt c2 w2 .BinaryExpr) t1 t2
          ⟨hicmin, hicmax, hdcmin, hdcmax, hbm, hum, hpp, hekw⟩
          (hk ▸ hnw) ht) hkr
      cases ho1 : gen_binary_expr pt c1
          (fun w' s' => gen_with_weights pt c1 fuel w' s')
          (dampenAt c1 w1 .BinaryExpr)
          (DefaultGeneratorRng.gen_expr_kind w1 s1).2 with
      | none =>
        rw [ho1] at hopt
        cases ho2 : gen_binary_expr pt c2
            (fun w' s' => gen_with_weights pt c2 fuel w' s')
            (dampenAt c2 w2 .BinaryExpr)
            (DefaultGeneratorRng.gen_expr_kind w2 s2).2 with
        | none => dsimp only; trivial
        | some p2 => rw [ho2] at hopt; exact hopt.elim
      | some p1 =>
        rw [ho1] at hopt
        cases ho2 : gen_binary_expr pt c2
            (fun w' s' => gen_with_weights pt c2 fuel w' s')
            (dampenAt c2 w2 .BinaryExpr)
            (DefaultGeneratorRng.gen_expr_kind w2 s2).2 with
        | none => rw [ho2] at hopt; exact hopt.elim
        | some p2 =>
          rw [ho2] at hopt
          obtain ⟨hv, hr⟩ := hopt
          dsimp only
          exact optrel_some_mp hpp hv hr
    | UnaryExpr =>
      dsimp only
      have hopt := gen_unary_expr_congr pt hum
        (fun t1 t2 ht => ih c1 c2 (dampenAt c1 w1 .UnaryExpr)
          (dampenAt c2 w2 .UnaryExpr) t1 t2
          ⟨hicmin, hicmax, hdcmin, hdcmax, hbm, hum, hpp, hekw⟩
          (hk ▸ hnw) ht) hkr
      cases ho1 : gen_unary_expr pt c1
          (fun w' s' => gen_with_weights pt c1 fuel w' s')
          (dampenAt c1 w1 .UnaryExpr)
          (DefaultGeneratorRng.gen_expr_kind w1 s1).2 with
      | none =>
        rw [ho1] at hopt
        cases ho2 : gen_unary_expr pt c2
            (fun w' s' => gen_with_weights pt c2 fuel w' s')
            (dampenAt c2 w2 .UnaryExpr)
            (DefaultGeneratorRng.gen_expr_kind w2 s2).2 with
        | none => dsimp only; trivial
        | some p2 => rw [ho2] at hopt; exact hopt.elim
      | some p1 =>
        rw [ho1] at hopt
        cases ho2 : gen_unary_expr pt c2
            (fun w' s' => gen_with_weights pt c2 fuel w' s')
            (dampenAt c2 w2 .UnaryExpr)
            (DefaultGeneratorRng.gen_expr_kind w2 s2).2 with
        | none => rw [ho2] at hopt; exact hopt.elim
        | some p2 =>
          rw [ho2] at hopt
          obtain ⟨hv, hr⟩ := hopt
          dsimp only
          exact optrel_some_mp hpp hv hr

theorem optRel_map_stProj {o1 o2 : Option (Expr × RngState)} (h : OptRel o1 o2) :
    o1.map stProj = o2.map stProj := by
  cases o1 with
  | none =>
    cases o2 with
    | none => rfl
    | some p => exact h.elim
  | some p =>
    cases o2 with
    | none => exact h.elim
    | some q =>
      obtain ⟨he, hc, ht, -⟩ := h
      simp [stProj, he, hc, ht]

theorem extends_refl (s : RngState) : Extends s s :=
  ⟨Nat.le_refl _, [], by simp, by simp⟩

theorem Extends.trans {s1 s2 s3 : RngState} (h1 : Extends s1 s2)
    (h2 : Extends s2 s3) : Extends s1 s3 := by
  obtain ⟨hc1, t1, ht1, hp1⟩ := h1
  obtain ⟨hc2, t2, ht2, hp2⟩ := h2
  refine ⟨Nat.le_trans hc1 hc2, t1 ++ t2, ?_, ?_⟩
  · rw [ht2, ht1, List.append_assoc]
  · intro d hd
    rcases List.mem_append.mp hd with hm | hm
    · exact hp1 d hm
    · exact hp2 d hm

theorem Extends.bump_self (s : RngState) (d : Draw) (hd : d.isExprDraw = true) :
    Extends s (bump s d) := by
  refine ⟨by simp [bump], [d], by simp [bump], ?_⟩
  intro d' hd'
  simp at hd'
  subst hd'
  exact hd

theorem gen_expr_kind_extends (w : Weights) (s : RngState) :
    Extends s (DefaultGeneratorRng.gen_expr_kind w s).2 :=
  Extends.bump_self s _ (Eq.refl _)

theorem maybe_parenthesized_extends (cfg : GenConfig) (e : Expr) (t : RngState) :
    Extends t (maybe_parenthesized cfg e t).2 :=
  Extends.bump_self t _ (Eq.refl _)

theorem gen_integer_constant_extends (cfg : GenConfig) (w : Weights) (t : RngState) :
    Extends t (gen_integer_constant cfg w t).2 :=
  Extends.bump_self t _ (Eq.refl _)

theorem gen_double_constant_extends (cfg : GenConfig) (w : Weights) (t : RngState) :
    Extends t (gen_double_constant cfg w t).2 :=
  Extends.bump_self t _ (Eq.refl _)

theorem gen_bin_op_state (mask : List Bool) (s : RngState) (op : Nat)
    (t : RngState) (h : DefaultGeneratorRng.gen_bin_op mask s = some (op, t)) :
    t = bump s (.binOp op) := by
  unfold DefaultGeneratorRng.gen_bin_op at h
  cases hp : pick_nth_set_bit_rng mask s with
  | none => rw [hp] at h; cases h
  | some op' =>
    rw [hp] at h
    dsimp only at h
    simp only [Option.some.injEq, Prod.mk.injEq] at h
    rw [← h.2, h.1]

theorem gen_un_op_state (mask : List Bool) (s : RngState) (op : Nat)
    (t : RngState) (h : DefaultGeneratorRng.gen_un_op mask s = some (op, t)) :
    t = bump s (.unOp op) := by
  unfold DefaultGeneratorRng.gen_un_op at h
  cases hp : pick_nth_set_bit_rng mask s with
  | none => rw [hp] at h; cases h
  | some op' =>
    rw [hp] at h
    dsimp only at h
    simp only [Option.some.injEq, Prod.mk.injEq] at h
    rw [← h.2, h.1]

/-- Inversion for `gen_unary_expr`: a successful run splits into the
operand generation followed by the operator draw (in this order), and the
result is assembled from the wrap step. -/
theorem gen_unary_expr_inv (pt : PrecTable) (cfg : GenConfig)
    (gs : Weights → RngState → Option (Expr × RngState)) (w : Weights)
    (s : RngState) (e : Expr) (s'' : RngState)
    (h : gen_unary_expr pt cfg gs w s = some (e, s'')) :
    ∃ e0 s1 op, gs w s = some (e0, s1) ∧
      DefaultGeneratorRng.gen_un_op cfg.un_op_mask s1 = some (op, s'') ∧
      e = Expr.UnaryExpr op (wrap_operand pt e0) := by
  unfold gen_unary_expr at h
  cases h1 : gs w s with
  | none => rw [h1] at h; simp at h
  | some p =>
    obtain ⟨e0, s1⟩ := p
    rw [h1] at h
    dsimp only at h
    cases huo : DefaultGeneratorRng.gen_un_op cfg.un_op_mask s1 with
    | none => rw [huo] at h; simp at h
    | some q =>
      obtain ⟨op, s2⟩ := q
      rw [huo] at h
      dsimp only at h
      simp only [Option.some.injEq, Prod.mk.injEq] at h
      exact ⟨e0, s1, op, rfl, by rw [huo, h.2], h.1.symm⟩

theorem gen_binary_expr_extends (pt : PrecTable) (cfg : GenConfig)
    (gs : Weights → RngState → Option (Expr × RngState)) (w : Weights)
    (s : RngState) (e : Expr) (s'' : RngState)
    (hg : ∀ w' t e' t', gs w' t = some (e', t') → Extends t t')
    (h : gen_binary_expr pt cfg gs w s = some (e, s'')) : Extends s s'' := by
  obtain ⟨op, s1, lhs0, s2, rhs0, hbo, h1, h2, -⟩ :=
    gen_binary_expr_inv pt cfg gs w s e s'' h
  have e1 : s1 = bump s (.binOp op) := gen_bin_op_state _ _ _ _ hbo
  have hx : Extends s s1 := by
    rw [e1]
    exact Extends.bump_self s _ (Eq.refl _)
  exact (hx.trans (hg _ _ _ _ h1)).trans (hg _ _ _ _ h2)

theorem gen_unary_expr_extends (pt : PrecTable) (cfg : GenConfig)
    (gs : Weights → RngState → Option (Expr × RngState)) (w : Weights)
    (s : RngState) (e : Expr) (s'' : RngState)
    (hg : ∀ w' t e' t', gs w' t = some (e', t') → Extends t t')
    (h : gen_unary_expr pt cfg gs w s = some (e, s'')) : Extends s s'' := by
  obtain ⟨e0, s1, op, h1, huo, -⟩ := gen_unary_expr_inv pt cfg gs w s e s'' h
  have e1 : s'' = bump s1 (.unOp op) := gen_un_op_state _ _ _ _ huo
  refine (hg _ _ _ _ h1).trans ?_
  rw [e1]
  exact Extends.bump_self s1 _ (Eq.refl _)

set_option maxHeartbeats 4000000 in
theorem gen_with_weights_extends (pt : PrecTable) (cfg : GenConfig) :
    ∀ (fuel : Nat) (w : Weights) (s : RngState) (e : Expr) (s' : RngState),
      gen_with_weights pt cfg fuel w s = some (e, s') → Extends s s' := by
  intro fuel
  induction fuel with
  | zero =>
    intro w s e s' h
    rw [gen_with_weights] at h
    cases h
  | succ fuel ih =>
    intro w s e s' h
    rw [gen_with_weights] at h
    cases hk : (DefaultGeneratorRng.gen_expr_kind w s).1 with
    | IntegerConstant =>
      rw [hk] at h
      dsimp only at h
      simp only [Option.some.injEq, Prod.ext_iff] at h
      rw [← h.2]
      exact ((gen_expr_kind_extends w s).trans
        (gen_integer_constant_extends cfg _ _)).trans
        (maybe_parenthesized_extends cfg _ _)
    | DoubleConstant =>
      rw [hk] at h
      dsimp only at h
      simp only [Option.some.injEq, Prod.ext_iff] at h
      rw [← h.2]
      exact ((gen_expr_kind_extends w s).trans
        (gen_double_constant_extends cfg _ _)).trans
        (maybe_parenthesized_extends cfg _ _)
    | VariableExpr =>
      rw [hk] at h
      dsimp only at h
      simp only [Option.some.injEq, Prod.ext_iff] at h
      rw [← h.2]
      exact (gen_expr_kind_extends w s).trans
        (maybe_parenthesized_extends cfg _ _)
    | BinaryExpr =>
      rw [hk] at h
      dsimp only at h
      cases hb : gen_binary_expr pt cfg
          (fun w' s'' => gen_with_weights pt cfg fuel w' s'')
          (dampenAt cfg w .BinaryExpr)
          (DefaultGeneratorRng.gen_expr_kind w s).2 with
      | none => rw [hb] at h; cases h
      | some p =>
        rw [hb] at h
        dsimp only at h
        simp only [Option.some.injEq, Prod.ext_iff] at h
        rw [← h.2]
        have hbe : Extends (DefaultGeneratorRng.gen_expr_kind w s).2 p.2 :=
          gen_binary_expr_extends pt cfg _ _ _ p.1 p.2
            (fun w' t e' t' hh => ih w' t e' t' hh) hb
        exact ((gen_expr_kind_extends w s).trans hbe).trans
          (maybe_parenthesized_extends cfg _ _)
    | UnaryExpr =>
      rw [hk] at h
      dsimp only at h
      cases hb : gen_unary_expr pt cfg
          (fun w' s'' => gen_with_weights pt cfg fuel w' s'')
          (dampenAt cfg w .UnaryExpr)
          (DefaultGeneratorRng.gen_expr_kind w s).2 with
      | none => rw [hb] at h; cases h
      | some p =>
        rw [hb] at h
        dsimp only at h
        simp only [Option.some.injEq, Prod.ext_iff] at h
        rw [← h.2]
        have hue : Extends (DefaultGeneratorRng.gen_expr_kind w s).2 p.2 :=
          gen_unary_expr_extends pt cfg _ _ _ p.1 p.2
            (fun w' t e' t' hh => ih w' t e' t' hh) hb
        exact ((gen_expr_kind_extends w s).trans hue).trans
          (maybe_parenthesized_extends cfg _ _)

/-- C7: a generation run backed by `DefaultGeneratorRng` is deterministic:
two `generate()` runs over engines that produce the same output sequence
(same seed) from the same configuration return the same expression tree,
consume the same number of engine outputs, and issue the identical sequence
of draws. -/
theorem generate_deterministic (pt : PrecTable) (cfg : GenConfig)
    (fuel : Nat) (f g : Nat → Nat) (hfg : ∀ i, f i = g i) :
    (generate pt cfg fuel ⟨f, 0, []⟩).map stProj =
      (generate pt cfg fuel ⟨g, 0, []⟩).map stProj :=
  optRel_map_stProj
    (gen_with_weights_congr pt fuel cfg cfg (initialWeights cfg)
      (initialWeights cfg) ⟨f, 0, []⟩ ⟨g, 0, []⟩
      ⟨Eq.refl _, Eq.refl _, Eq.refl _, Eq.refl _, Eq.refl _, Eq.refl _,
        Eq.refl _, Eq.refl _⟩
      (Eq.refl _) ⟨Eq.refl _, Eq.refl _, fun i _ => hfg i⟩)

/-- C10: a top-level `generate()` run reads only the expression-relevant
configuration: two configurations that agree on everything except
`const_prob`, `volatile_prob` and the type-kind weight table produce the
same tree, cursor and draw log from the same engine state; moreover every
draw a run issues is an expression-path draw — no cv-qualifier and no
type-kind draw ever occurs (`gen_cv_qualifiers` / `gen_type_kind` are never
invoked). -/
theorem generate_ignores_type_and_cv_config (pt : PrecTable)
    (c1 c2 : GenConfig) (fuel : Nat) (s : RngState)
    (hagree : cfgExprAgree c1 c2) :
    (generate pt c1 fuel s).map stProj = (generate pt c2 fuel s).map stProj ∧
    (∀ e s', generate pt c1 fuel s = some (e, s') → Extends s s') := by
  constructor
  · apply optRel_map_stProj
    apply gen_with_weights_congr pt fuel c1 c2 _ _ s s hagree ?_ (stRel_refl s)
    funext k
    simp [initialWeights, hagree.2.2.2.2.2.2.2]
  · intro e s' h
    exact gen_with_weights_extends pt c1 fuel _ s e s' h

/-- C4 (amended): when the drawn kind is `UnaryExpr`, the generator first
recursively generates the operand and only then draws the unary operator
from `cfg.un_op_mask`: in the issued draw sequence the operator draw comes
after every draw made while generating the operand (the log grows by the
operand's draws, then the single `unOp` draw). -/
theorem gen_unary_expr_operand_first (pt : PrecTable) (cfg : GenConfig)
    (fuel : Nat) (w : Weights) (s : RngState) (e : Expr) (s' : RngState)
    (h : gen_unary_expr pt cfg
        (fun w' s'' => gen_with_weights pt cfg fuel w' s'') w s =
      some (e, s')) :
    ∃ e0 s1 t op,
      gen_with_weights pt cfg fuel w s = some (e0, s1) ∧
      s1.trace = s.trace ++ t ∧
      s'.trace = s.trace ++ t ++ [Draw.unOp op] ∧
      e = Expr.UnaryExpr op (wrap_operand pt e0) := by
  obtain ⟨e0, s1, op, h1, huo, he⟩ := gen_unary_expr_inv pt cfg _ w s e s' h
  have h1' : gen_with_weights pt cfg fuel w s = some (e0, s1) := h1
  obtain ⟨-, t, ht, -⟩ := gen_with_weights_extends pt cfg fuel w s e0 s1 h1'
  have hs' : s' = bump s1 (.unOp op) := gen_un_op_state _ _ _ _ huo
  refine ⟨e0, s1, t, op, h1', ht, ?_, he⟩
  rw [hs']
  simp [bump, ht]

theorem frac_nonneg (r : Nat) : 0 ≤ frac r := by
  rw [frac]
  positivity

theorem frac_lt_one (r : Nat) : frac r < 1 := by
  rw [frac, div_lt_one (by norm_num [RAND_DEN])]
  exact_mod_cast Nat.mod_lt r (by norm_num [RAND_DEN])

theorem maybe_parenthesized_prob_zero (cfg : GenConfig)
    (hp : cfg.parenthesize_prob = 0) (e : Expr) (t : RngState) :
    (maybe_parenthesized cfg e t).1 = e := by
  simp [maybe_parenthesized, DefaultGeneratorRng.gen_parenthesize, hp,
    not_lt.mpr (frac_nonneg (rawVal t))]

/-- C6 (amended): for every configuration with `int_const_min = 0`,
`int_const_max = 0`, every expression-kind initial weight zero except
`IntegerConstant = 1`, and `parenthesize_prob = 0`, `generate()` returns
exactly the tree `IntegerConstant(0)` on every run, for every seed/engine
stream and any positive fuel. -/
theorem generate_single_int_kind (pt : PrecTable) (cfg : GenConfig)
    (fuel : Nat) (s : RngState)
    (hmin : cfg.int_const_min = 0) (hmax : cfg.int_const_max = 0)
    (hw : ∀ k, (cfg.expr_kind_weights k).initial_weight =
      if k = ExprKind.IntegerConstant then 1 else 0)
    (hp : cfg.parenthesize_prob = 0) :
    (generate pt cfg (fuel + 1) s).map (fun p => p.1) =
      some (Expr.IntegerConstant 0) := by
  have hwi : (initialWeights cfg).expr_weights =
      fun k => if k = ExprKind.IntegerConstant then (1 : ℚ) else 0 := by
    funext k
    simp [initialWeights, hw k]
  have hfr := frac_lt_one (rawVal s)
  have hkind : (DefaultGeneratorRng.gen_expr_kind (initialWeights cfg) s).1 =
      ExprKind.IntegerConstant := by
    simp [DefaultGeneratorRng.gen_expr_kind, exprWeightsList, hwi, scanKind,
      ExprKind.ofIdx, hfr]
  unfold generate
  rw [gen_with_weights]
  rw [hkind]
  dsimp only
  simp only [Option.map_some']
  rw [maybe_parenthesized_prob_zero cfg hp]
  simp [gen_integer_constant, DefaultGeneratorRng.gen_u64, hmin, hmax,
    Nat.mod_one]

theorem frac_zero : frac 0 = 0 := by
  simp [frac]

/-- Counterexample to C3 as stated: `gen_expr_kind` on the all-zero weight
vector does not raise any failure — it returns normally, and the value it
returns is exactly the default/zero kind `ExprKind::IntegerConstant`,
having consumed one engine draw. -/
theorem gen_expr_kind_zero_sum_cex :
    (DefaultGeneratorRng.gen_expr_kind zeroW st0).1 = ExprKind.IntegerConstant ∧
    (DefaultGeneratorRng.gen_expr_kind zeroW st0).2.trace = [Draw.exprKind 0] := by
  constructor
  · simp [DefaultGeneratorRng.gen_expr_kind, zeroW, exprWeightsList, scanKind,
      ExprKind.ofIdx]
  · simp [DefaultGeneratorRng.gen_expr_kind, zeroW, exprWeightsList, scanKind,
      ExprKind.ofIdx, ExprKind.toIdx, bump, st0]

theorem pick_nth_set_bit_spec_witness :
    (∃ i, pick_nth_set_bit [true, true, false, true] 2 = some i ∧
      [true, true, false, true].getD i false = true ∧
      setBitsUpTo [true, true, false, true] (i + 1) = 2) ∧
    (∀ c' i, 1 ≤ c' → pick_nth_set_bit [true, true, false, true] c' = some i →
      c' = setBitsUpTo [true, true, false, true] (i + 1)) ∧
    (∀ i, [true, true, false, true].getD i false = true →
      pick_nth_set_bit [true, true, false, true]
        (setBitsUpTo [true, true, false, true] (i + 1)) = some i) :=
  pick_nth_set_bit_spec [true, true, false, true] 2 (by decide) (by decide)

theorem selection_degenerate_domains_witness :
    pick_nth_set_bit_rng [false, false] st0 = none ∧
    (DefaultGeneratorRng.gen_expr_kind zeroW st0).1 = ExprKind.IntegerConstant :=
  selection_degenerate_domains [false, false] st0 st0 zeroW (by decide)
    (fun _ => rfl)

theorem generate_deterministic_witness :
    (generate pt0 baseCfg 1 ⟨fun i => 0 * i, 0, []⟩).map stProj =
      (generate pt0 baseCfg 1 ⟨fun _ => 0, 0, []⟩).map stProj :=
  generate_deterministic pt0 baseCfg 1 (fun i => 0 * i) (fun _ => 0)
    (fun i => Nat.zero_mul i)

theorem generate_ignores_type_and_cv_config_witness :
    (generate pt0 baseCfg 1 st0).map stProj =
      (generate pt0 cfgCv 1 st0).map stProj ∧
    (∀ e s', generate pt0 baseCfg 1 st0 = some (e, s') → Extends st0 s') :=
  generate_ignores_type_and_cv_config pt0 baseCfg cfgCv 1 st0
    ⟨rfl, rfl, rfl, rfl, rfl, rfl, rfl, rfl⟩

theorem gen_binary_expr_parenthesization_witness :
    ∃ op lhs0 rhs0,
      Expr.BinaryExpr (Expr.IntegerConstant 0) 0 (Expr.IntegerConstant 0) =
        Expr.BinaryExpr (wrap_lhs pt0 op lhs0) op (wrap_rhs pt0 op rhs0) ∧
      (wrap_lhs pt0 op lhs0 = Expr.ParenthesizedExpr lhs0 ↔
        expr_precedence pt0 lhs0 > pt0.binOp op) ∧
      (wrap_rhs pt0 op rhs0 = Expr.ParenthesizedExpr rhs0 ↔
        expr_precedence pt0 rhs0 ≥ pt0.binOp op) ∧
      expr_precedence pt0 (wrap_lhs pt0 op lhs0) ≤ pt0.binOp op ∧
      expr_precedence pt0 (wrap_rhs pt0 op rhs0) < pt0.binOp op :=
  gen_binary_expr_parenthesization pt0 baseCfg gsStub zeroW st0
    (Expr.BinaryExpr (Expr.IntegerConstant 0) 0 (Expr.IntegerConstant 0)) st0
    (fun o => by simp [pt0])
    (by simp [gen_binary_expr, gsStub, DefaultGeneratorRng.gen_bin_op,
      pick_nth_set_bit_rng, scanNth, st0, stream0, rawVal, bump, baseCfg,
      wrap_lhs, wrap_rhs, expr_precedence, pt0])

theorem gen_unary_expr_parenthesization_witness :
    ∃ op e0,
      Expr.UnaryExpr 0 (Expr.IntegerConstant 0) =
        Expr.UnaryExpr op (wrap_operand pt0 e0) ∧
      (wrap_operand pt0 e0 = Expr.ParenthesizedExpr e0 ↔
        expr_precedence pt0 e0 > pt0.unaryPrec) :=
  gen_unary_expr_parenthesization pt0 baseCfg gsStub zeroW st0
    (Expr.UnaryExpr 0 (Expr.IntegerConstant 0)) (bump st0 (.unOp 0))
    (by simp [gen_unary_expr, gsStub, DefaultGeneratorRng.gen_un_op,
      pick_nth_set_bit_rng, scanNth, st0, stream0, rawVal, bump, baseCfg,
      wrap_operand, expr_precedence, pt0])

theorem gen_with_weights_dampening_frame_witness :
    (dampenAt cfgBin (initialWeights cfgBin) ExprKind.BinaryExpr).expr_weights
        ExprKind.BinaryExpr =
      (initialWeights cfgBin).expr_weights ExprKind.BinaryExpr *
        (cfgBin.expr_kind_weights ExprKind.BinaryExpr).dampening_factor ∧
    (∀ j, j ≠ ExprKind.BinaryExpr →
      (dampenAt cfgBin (initialWeights cfgBin) ExprKind.BinaryExpr).expr_weights j =
        (initialWeights cfgBin).expr_weights j) ∧
    (dampenAt cfgBin (initialWeights cfgBin) ExprKind.BinaryExpr).type_weights =
      (initialWeights cfgBin).type_weights ∧
    (ExprKind.BinaryExpr = ExprKind.BinaryExpr →
      gen_with_weights pt0 cfgBin (1 + 1) (initialWeights cfgBin) st0 =
        match gen_binary_expr pt0 cfgBin
            (fun w' s' => gen_with_weights pt0 cfgBin 1 w' s')
            (dampenAt cfgBin (initialWeights cfgBin) ExprKind.BinaryExpr)
            (DefaultGeneratorRng.gen_expr_kind (initialWeights cfgBin) st0).2 with
        | none => none
        | some (e, s2) => some (maybe_parenthesized cfgBin e s2)) ∧
    (∀ gs w' s' e s'', gen_binary_expr pt0 cfgBin gs w' s' = some (e, s'') →
      ∃ op s1 lhs0 s2 rhs0,
        DefaultGeneratorRng.gen_bin_op cfgBin.bin_op_mask s' = some (op, s1) ∧
        gs w' s1 = some (lhs0, s2) ∧
        gs w' s2 = some (rhs0, s'') ∧
        e = Expr.BinaryExpr (wrap_lhs pt0 op lhs0) op (wrap_rhs pt0 op rhs0)) :=
  gen_with_weights_dampening_frame pt0 cfgBin 1 (initialWeights cfgBin) st0
    ExprKind.BinaryExpr
    (by simp [DefaultGeneratorRng.gen_expr_kind, exprWeightsList,
      initialWeights, cfgBin, baseCfg, scanKind, ExprKind.ofIdx, st0, stream0,
      rawVal, frac_zero])

/-- Counterexample to C4 as stated: a concrete unary generation in which
the operand draws come first. The engine stream is all zeros; the first
draw selects `UnaryExpr` (enum value 4), then the operand is generated (a
kind draw, a `u64` draw and a parenthesize draw), and only afterwards is
the unary operator drawn — the `unOp` draw appears after the `u64` operand
draw in the issued draw log, contradicting the claim that the operator
draw precedes every operand draw. -/
theorem gen_unary_draw_order_cex :
    (generate pt0 cfgUn 2 st0).map stProj =
      some (Expr.UnaryExpr 0 (Expr.IntegerConstant 0), 6,
        [Draw.exprKind 4, Draw.exprKind 0, Draw.u64 0, Draw.paren false] ++
          [Draw.unOp 0, Draw.paren false]) ∧
    Draw.u64 0 ∈ [Draw.exprKind 4, Draw.exprKind 0, Draw.u64 0, Draw.paren false] := by
  constructor
  · simp [generate, gen_with_weights, initialWeights, cfgUn, baseCfg,
      DefaultGeneratorRng.gen_expr_kind, exprWeightsList, scanKind,
      ExprKind.ofIdx, ExprKind.toIdx, dampenAt, gen_integer_constant,
      DefaultGeneratorRng.gen_u64, gen_unary_expr, DefaultGeneratorRng.gen_un_op,
      pick_nth_set_bit_rng, scanNth, maybe_parenthesized,
      DefaultGeneratorRng.gen_parenthesize, wrap_operand, expr_precedence,
      bump, rawVal, st0, stream0, frac_zero, stProj, pt0]
  · simp

theorem gen_unary_expr_operand_first_witness :
    ∃ e0 s1 t op,
      gen_with_weights pt0 cfgUn 1 zeroW st0 = some (e0, s1) ∧
      s1.trace = st0.trace ++ t ∧
      (RngState.mk stream0 4
        [Draw.exprKind 0, Draw.u64 0, Draw.paren false, Draw.unOp 0]).trace =
        st0.trace ++ t ++ [Draw.unOp op] ∧
      Expr.UnaryExpr 0 (Expr.IntegerConstant 0) =
        Expr.UnaryExpr op (wrap_operand pt0 e0) :=
  gen_unary_expr_operand_first pt0 cfgUn 1 zeroW st0
    (Expr.UnaryExpr 0 (Expr.IntegerConstant 0))
    (RngState.mk stream0 4
      [Draw.exprKind 0, Draw.u64 0, Draw.paren false, Draw.unOp 0])
    (by simp [gen_unary_expr, gen_with_weights, zeroW, cfgUn, baseCfg,
      DefaultGeneratorRng.gen_expr_kind, exprWeightsList, scanKind,
      ExprKind.ofIdx, ExprKind.toIdx, dampenAt, gen_integer_constant,
      DefaultGeneratorRng.gen_u64, DefaultGeneratorRng.gen_un_op,
      pick_nth_set_bit_rng, scanNth, maybe_parenthesized,
      DefaultGeneratorRng.gen_parenthesize, wrap_operand, expr_precedence,
      bump, rawVal, st0, stream0, frac_zero, pt0])

/-- Counterexample to C6 as stated: the claim constrains the integer range
and the initial weights but not `parenthesize_prob`; with
`parenthesize_prob = 1` (configuration `cfgInt`) the root is wrapped by
`maybe_parenthesized` and `generate` returns
`ParenthesizedExpr(IntegerConstant(0))`, not `IntegerConstant(0)`. -/
theorem generate_paren_prob_cex :
    (generate pt0 cfgInt 1 st0).map (fun p => p.1) =
      some (Expr.ParenthesizedExpr (Expr.IntegerConstant 0)) := by
  simp [generate, gen_with_weights, initialWeights, cfgInt, baseCfg,
    DefaultGeneratorRng.gen_expr_kind, exprWeightsList, scanKind,
    ExprKind.ofIdx, ExprKind.toIdx, dampenAt, gen_integer_constant,
    DefaultGeneratorRng.gen_u64, maybe_parenthesized,
    DefaultGeneratorRng.gen_parenthesize, bump, rawVal, st0, stream0,
    frac_zero]

theorem generate_single_int_kind_witness :
    (generate pt0 cfgIntPlain (0 + 1) st0).map (fun p => p.1) =
      some (Expr.IntegerConstant 0) :=
  generate_single_int_kind pt0 cfgIntPlain 0 st0 rfl rfl
    (fun k => by cases k <;> rfl) rfl

end fuzzer
